import Mathlib

/-!
Verification of the go-zfs command-line wrapper library.

The library shells out to the zfs and zpool tools and parses their tabular
text output.  We embed the pure parsing logic of the Go sources shallowly:

* strings are lists of characters (Go strings are byte slices; all relevant
  literal text is ASCII, and escaped bytes are modelled as natural numbers);
* an external command invocation is modelled by an ExecOutcome record giving
  the resolved binary path, the exit error (if any), and the captured stdout
  and stderr texts;
* Go functions returning a pair of a value and an error are modelled as pairs
  of options, mirroring each return statement of the source;
* a Go runtime panic is modelled as the none case of an outer Option layer.

Sources embedded: utils.go (the command runner, setString, setUint, the
Dataset and Zpool property-line parsers), zfs.go (Rollback, Children), and
the Diff method of the newest zfs.go revision.  The octal filename decoder
and the diff row parser are not present in the sources (only their tests and
caller are), so they are modelled from the specification, as marked on each
such definition.
-/

namespace GoZfs

/-- Text is modelled as a list of characters. -/
abbrev Str := List Char

/-- Go unicode.IsSpace, restricted to the code points Go treats as white
space (Latin-1 plus the Unicode space separators). -/
def isSpaceGo (c : Char) : Bool :=
  c.toNat ∈ [0x9, 0xA, 0xB, 0xC, 0xD, 0x20, 0x85, 0xA0, 0x1680,
    0x2000, 0x2001, 0x2002, 0x2003, 0x2004, 0x2005, 0x2006, 0x2007,
    0x2008, 0x2009, 0x200A, 0x2028, 0x2029, 0x202F, 0x205F, 0x3000]

/-- Equality on Except values is decidable when it is on both sides. -/
instance {ε α : Type} [DecidableEq ε] [DecidableEq α] :
    DecidableEq (Except ε α) := fun a b =>
  match a, b with
  | .ok x, .ok y =>
    if h : x = y then .isTrue (by rw [h])
    else .isFalse (by intro hh; cases hh; exact h rfl)
  | .error x, .error y =>
    if h : x = y then .isTrue (by rw [h])
    else .isFalse (by intro hh; cases hh; exact h rfl)
  | .ok _, .error _ => .isFalse (by intro hh; cases hh)
  | .error _, .ok _ => .isFalse (by intro hh; cases hh)

/-- Auxiliary for goFields: walk the characters keeping the reversed
current word, emitting it whenever white space or the end is reached. -/
def goFieldsAux : Str → Str → List Str
  | [], w => if w = [] then [] else [w.reverse]
  | c :: cs, w =>
    if isSpaceGo c then
      if w = [] then goFieldsAux cs [] else w.reverse :: goFieldsAux cs []
    else goFieldsAux cs (c :: w)

/-- Go strings.Fields: split around maximal runs of white space, dropping
empty fields. -/
def goFields (l : Str) : List Str := goFieldsAux l []

/-- Go strings.Join with a single-space separator. -/
def joinWords (ws : List Str) : Str := List.intercalate [' '] ws

/-- The line structure produced by command.Run from captured stdout, shared
by every revision of utils.go: split stdout on newlines and drop the last
element (the text after the final newline). -/
def runRows (stdout : Str) : List Str := (stdout.splitOn '\n').dropLast

/-- Row fields as produced by the newest command.Run (utils.go lines
484 to 494): each non-final stdout line is split on tab characters. -/
def runSplitRows (stdout : Str) : List (List Str) :=
  (runRows stdout).map (fun l => l.splitOn '\t')

/-- Row fields as produced by the oldest command.Run (utils.go lines 52 to
62): each non-final stdout line is split with strings.Fields. -/
def runSplitRowsFields (stdout : Str) : List (List Str) :=
  (runRows stdout).map goFields

/-- Environment outcome of one external command invocation: the path the
binary name resolved to, the error from cmd.Run (some means a non-zero exit
or failure to start), and the captured stdout and stderr texts. -/
structure ExecOutcome where
  resolvedPath : Str
  exitErr : Option Str
  stdout : Str
  stderr : Str
deriving DecidableEq, Repr

/-- The Error struct of the package: underlying error, the assembled debug
command line, and the captured stderr text. -/
structure ZError where
  err : Str
  debug : Str
  stderr : Str
deriving DecidableEq, Repr

/-- The debug command line built by command.Run: strings.Join of the
resolved path and strings.Join(cmd.Args, " "), where cmd.Args is the
command name followed by the arguments. -/
def runDebug (cmdName : Str) (args : List Str) (oc : ExecOutcome) : Str :=
  joinWords [oc.resolvedPath, joinWords (cmdName :: args)]

/-- command.Run of the newest utils.go revision (lines 450 to 494): on a
non-zero exit return no rows and an Error record; on success with a caller
supplied stdout writer return neither rows nor error; otherwise return the
captured stdout split into tab-separated rows. -/
def commandRun (cmdName : Str) (args : List Str) (redirect : Bool)
    (oc : ExecOutcome) : Option (List (List Str)) × Option ZError :=
  match oc.exitErr with
  | some e => (none, some ⟨e, runDebug cmdName args oc, oc.stderr⟩)
  | none =>
    if redirect then (none, none)
    else (some (runSplitRows oc.stdout), none)

/-- command.Run of the oldest utils.go revision (lines 18 to 63): identical
to the newest revision except that each line is split with strings.Fields
rather than on tab characters. -/
def commandRunV1 (cmdName : Str) (args : List Str) (redirect : Bool)
    (oc : ExecOutcome) : Option (List (List Str)) × Option ZError :=
  match oc.exitErr with
  | some e => (none, some ⟨e, runDebug cmdName args oc, oc.stderr⟩)
  | none =>
    if redirect then (none, none)
    else (some (runSplitRowsFields oc.stdout), none)

/-- Go strconv.ParseUint with base 10 and 64 bits: digits only, no sign,
value below 2 to the 64; the error text mirrors the Go error strings. -/
def parseUint64 (s : Str) : Except Str Nat :=
  if s ≠ [] ∧ s.all Char.isDigit then
    let v := s.foldl (fun a c => a * 10 + (c.toNat - '0'.toNat)) 0
    if v < 2 ^ 64 then .ok v
    else .error ("strconv.ParseUint: parsing \"".data ++ s ++
      "\": value out of range".data)
  else .error ("strconv.ParseUint: parsing \"".data ++ s ++
    "\": invalid syntax".data)

/-- setString of utils.go lines 65 to 71: the new field value is the given
value unless it is the missing-property sentinel, in which case it is the
empty string. -/
def setString (value : Str) : Str :=
  if value ≠ "-".data then value else []

/-- setUint of utils.go lines 73 to 84: the new field value parses the given
text as an unsigned 64-bit decimal unless it is the missing-property
sentinel, in which case it is zero; a parse failure is returned as an error
and leaves the field untouched. -/
def setUint (value : Str) : Except Str Nat :=
  if value ≠ "-".data then parseUint64 value else .ok 0

/-- The Dataset record (zfs.go); the Go field named Type is called Typ here
because Type is reserved in Lean. -/
structure Dataset where
  Name : Str := []
  Origin : Str := []
  Used : Nat := 0
  Avail : Nat := 0
  Mountpoint : Str := []
  Compression : Str := []
  Typ : Str := []
  Written : Nat := 0
  Volsize : Nat := 0
  Logicalused : Nat := 0
  Usedbydataset : Nat := 0
  Quota : Nat := 0
  Referenced : Nat := 0
deriving DecidableEq, Repr

/-- Dataset.parseLine of utils.go lines 86 to 117, applied to the property
name and value fields of one output line of zfs get: each recognised
property updates its field through setUint or setString.  The error of
setUint on the quota property is discarded by the source (utils.go line
100), so a quota parse failure leaves the record unchanged. -/
def Dataset.parseLine (ds : Dataset) (prop val : Str) : Except Str Dataset :=
  if prop = "available".data then
    match setUint val with
    | .ok v => .ok { ds with Avail := v }
    | .error e => .error e
  else if prop = "compression".data then .ok { ds with Compression := setString val }
  else if prop = "mountpoint".data then .ok { ds with Mountpoint := setString val }
  else if prop = "quota".data then
    match setUint val with
    | .ok v => .ok { ds with Quota := v }
    | .error _ => .ok ds
  else if prop = "type".data then .ok { ds with Typ := setString val }
  else if prop = "used".data then
    match setUint val with
    | .ok v => .ok { ds with Used := v }
    | .error e => .error e
  else if prop = "volsize".data then
    match setUint val with
    | .ok v => .ok { ds with Volsize := v }
    | .error e => .error e
  else if prop = "written".data then
    match setUint val with
    | .ok v => .ok { ds with Written := v }
    | .error e => .error e
  else .ok ds

/-- Dataset.parseLine applied to a whole output row.  The source indexes
line[1] and line[2]; on a row with fewer than three fields that indexing
panics, modelled by none. -/
def Dataset.parseLineRow (ds : Dataset) (line : List Str) :
    Option (Except Str Dataset) :=
  match line with
  | _ :: prop :: val :: _ => some (ds.parseLine prop val)
  | _ => none

/-- The Zpool record (zpool.go). -/
structure Zpool where
  Name : Str := []
  Health : Str := []
  Allocated : Nat := 0
  Size : Nat := 0
  Free : Nat := 0
deriving DecidableEq, Repr

/-- Zpool.parseLine of utils.go lines 155 to 175, applied to the property
name and value fields of one output line of zpool get. -/
def Zpool.parseLine (z : Zpool) (prop val : Str) : Except Str Zpool :=
  if prop = "health".data then .ok { z with Health := setString val }
  else if prop = "allocated".data then
    match setUint val with
    | .ok v => .ok { z with Allocated := v }
    | .error e => .error e
  else if prop = "size".data then
    match setUint val with
    | .ok v => .ok { z with Size := v }
    | .error e => .error e
  else if prop = "free".data then
    match setUint val with
    | .ok v => .ok { z with Free := v }
    | .error e => .error e
  else .ok z

/-- An error escaping a zfs wrapper call: either the command error record of
command.Run or a property parse error message. -/
inductive ZfsError
  | cmd (e : ZError)
  | parse (e : Str)
deriving DecidableEq, Repr

/-- The grouping loop shared by listByType and Dataset.Children (zfs.go
lines 231 to 240): walk the output rows, starting a fresh Dataset whenever
the first field changes, and feed every row to parseLine of the current
record.  The none result models the two runtime panics of the source: a nil
current record (possible when the first row has an empty first field) and
the out-of-range indexing inside parseLine on a short row. -/
def childLoop : List (List Str) → Str → Option Dataset → List Dataset →
    Option (Except Str (List Dataset))
  | [], _, curr, acc => some (.ok (acc ++ curr.toList))
  | line :: rest, name, curr, acc =>
    match line with
    | [] => none
    | f0 :: _ =>
      let fresh := name ≠ f0
      let curr' := if fresh then some { Name := f0 } else curr
      let acc' := if fresh then acc ++ curr.toList else acc
      let name' := if fresh then f0 else name
      match curr' with
      | none => none
      | some d =>
        match d.parseLineRow line with
        | none => none
        | some (.error e) => some (.error e)
        | some (.ok d') => childLoop rest name' (some d') acc'

/-- The argument vector of Dataset.Rollback (zfs.go lines 201 to 206). -/
def rollbackArgs (destroyMoreRecent : Bool) (name : Str) : List Str :=
  "rollback".data :: (if destroyMoreRecent then ["-r".data] else []) ++ [name]

/-- The possible errors of a rollback: the snapshot-only type check or a
command error. -/
inductive RollbackError
  | snapshotOnly (msg : Str)
  | cmd (e : ZError)
deriving DecidableEq, Repr

/-- Dataset.Rollback of zfs.go lines 196 to 210.  The source constructs the
errors.New value for a non-snapshot receiver but never returns it (the
return statement is missing), so the check has no effect and the zfs
rollback command runs regardless; the result is solely the command result. -/
def Dataset.Rollback (d : Dataset) (destroyMoreRecent : Bool)
    (oc : ExecOutcome) : Option RollbackError :=
  let _discarded : Option RollbackError :=
    if d.Typ ≠ "snapshot".data then
      some (.snapshotOnly "can only rollback snapshots".data)
    else none
  match commandRunV1 "zfs".data (rollbackArgs destroyMoreRecent d.Name) false oc with
  | (_, some e) => some (.cmd e)
  | (_, none) => none

/-- The argument vector of Dataset.Children (zfs.go lines 214 to 221). -/
def childrenArgs (depth : Nat) (name : Str) : List Str :=
  ["get".data, "all".data, "-t".data, "all".data, "-Hp".data] ++
    (if depth > 0 then ["-d".data, (toString depth).data] else ["-r".data]) ++
    [name]

/-- Dataset.Children of zfs.go lines 213 to 243: run zfs get, group the
rows into Dataset records, and return datasets[1:len(datasets)].  The outer
none models a runtime panic: in particular, when the command succeeds with
zero output rows the grouped list is empty and the slice expression
datasets[1:0] is out of bounds. -/
def Dataset.Children (d : Dataset) (depth : Nat) (oc : ExecOutcome) :
    Option (Option (List Dataset) × Option ZfsError) :=
  match commandRunV1 "zfs".data (childrenArgs depth d.Name) false oc with
  | (_, some e) => some (none, some (.cmd e))
  | (out, none) =>
    match childLoop (out.getD []) [] none [] with
    | none => none
    | some (.error e) => some (none, some (.parse e))
    | some (.ok datasets) =>
      if 1 ≤ datasets.length then some (some (datasets.drop 1), none)
      else none

/-- An octal digit, 0 through 7. -/
def isOctCh (c : Char) : Bool := c.isDigit && decide (c ≤ '7')

/-- The value of a run of octal digits, most significant first. -/
def octValOf (ds : Str) : Nat :=
  ds.foldl (fun a c => a * 8 + (c.toNat - '0'.toNat)) 0

/-- The UTF-8 byte sequence of one character, as Go emits it for a literal
(non-escaped) character of a decoded path. -/
def charUtf8Bytes (c : Char) : List Nat :=
  let n := c.toNat
  if n < 0x80 then [n]
  else if n < 0x800 then [0xC0 + n / 64, 0x80 + n % 64]
  else if n < 0x10000 then
    [0xE0 + n / 4096, 0x80 + (n / 64) % 64, 0x80 + n % 64]
  else
    [0xF0 + n / 0x40000, 0x80 + (n / 4096) % 64, 0x80 + (n / 64) % 64,
      0x80 + n % 64]

/-- Errors of the octal-escape filename decoder: an escape with too few
digits, a digit run that does not parse in base 8, and a decoded byte
stream that fails UTF-8 revalidation.  The offending digit substring is
carried for diagnostics. -/
inductive DecodeError
  | invalidEscapeLength (digits : Str)
  | invalidOctalDigits (digits : Str)
  | invalidUtf8
deriving DecidableEq, Repr

/-- Modelled from the spec: the byte-level pass of the octal-escape
filename decoder, whose implementation (unescapeFilepath) is absent from
the sources, as a one-character-at-a-time scan.  The state is whether the
scan is inside an escape and the digit run collected so far (at most
three digits are held; a fourth digit resolves the escape at once).  A
backslash opens an escape; its digit run is captured greedily up to four
digits; fewer than three digits before a non-digit or the end is an
invalid escape length; a four-digit run starting with 0 is the 4-digit
form and must parse in base 8 as one byte; otherwise the first three
digits form the 3-digit form and the fourth digit is literal text.
Literal characters contribute their UTF-8 bytes unchanged. -/
def unescRun : Str → Bool → Str → Except DecodeError (List Nat)
  | [], inEsc, digs =>
    if inEsc then
      if digs.length = 3 then
        if digs.all isOctCh ∧ octValOf digs < 256 then .ok [octValOf digs]
        else .error (.invalidOctalDigits digs)
      else .error (.invalidEscapeLength digs)
    else .ok []
  | c :: cs, inEsc, digs =>
    if inEsc then
      if c.isDigit then
        if digs.length = 3 then
          if digs.headD ' ' = '0' then
            if (digs ++ [c]).all isOctCh ∧ octValOf (digs ++ [c]) < 256 then
              (unescRun cs false []).map
                (fun bs => octValOf (digs ++ [c]) :: bs)
            else .error (.invalidOctalDigits (digs ++ [c]))
          else
            if digs.all isOctCh ∧ octValOf digs < 256 then
              (unescRun cs false []).map
                (fun bs => octValOf digs :: c.toNat :: bs)
            else .error (.invalidOctalDigits digs)
        else unescRun cs true (digs ++ [c])
      else
        if digs.length = 3 then
          if digs.all isOctCh ∧ octValOf digs < 256 then
            if c = '\\' then
              (unescRun cs true []).map (fun bs => octValOf digs :: bs)
            else
              (unescRun cs false []).map
                (fun bs => octValOf digs :: (charUtf8Bytes c ++ bs))
          else .error (.invalidOctalDigits digs)
        else .error (.invalidEscapeLength digs)
    else
      if c = '\\' then unescRun cs true []
      else (unescRun cs false []).map (fun bs => charUtf8Bytes c ++ bs)

/-- The byte-level pass of the decoder, started outside any escape. -/
def unescapeBytes (s : Str) : Except DecodeError (List Nat) :=
  unescRun s false []

/-- A UTF-8 continuation byte. -/
def contB (b : Nat) : Bool := decide (0x80 ≤ b ∧ b < 0xC0)

/-- Modelled from the spec: strict UTF-8 revalidation of the accumulated
byte stream (overlong forms, surrogates and out-of-range code points
rejected), as a one-byte-at-a-time scan.  The state is the number of
continuation bytes still expected, the code point accumulated so far, and
the smallest code point the current sequence is allowed to produce. -/
def utf8Run : List Nat → Nat → Nat → Nat → Option (List Char)
  | [], need, _, _ => if need = 0 then some [] else none
  | b :: bs, need, acc, minCp =>
    if need = 0 then
      if b < 0x80 then (utf8Run bs 0 0 0).map (fun cs => Char.ofNat b :: cs)
      else if b < 0xC2 then none
      else if b < 0xE0 then utf8Run bs 1 (b - 0xC0) 0x80
      else if b < 0xF0 then utf8Run bs 2 (b - 0xE0) 0x800
      else if b < 0xF5 then utf8Run bs 3 (b - 0xF0) 0x10000
      else none
    else
      if contB b then
        if need = 1 then
          if minCp ≤ acc * 64 + (b - 0x80) ∧
              (acc * 64 + (b - 0x80) < 0xD800 ∨ 0xE000 ≤ acc * 64 + (b - 0x80)) ∧
              acc * 64 + (b - 0x80) < 0x110000 then
            (utf8Run bs 0 0 0).map
              (fun cs => Char.ofNat (acc * 64 + (b - 0x80)) :: cs)
          else none
        else utf8Run bs (need - 1) (acc * 64 + (b - 0x80)) minCp
      else none

/-- UTF-8 decoding of a whole byte stream, started in the clean state. -/
def utf8Decode (l : List Nat) : Option (List Char) := utf8Run l 0 0 0

/-- Modelled from the spec: the octal-escape filename decoder.  All bytes
of the input, escaped and literal alike, are accumulated before the whole
stream is revalidated as UTF-8 text, so consecutive escapes that encode one
multi-byte code point come out as a single character. -/
def unescapeFilepath (s : Str) : Except DecodeError Str :=
  match unescapeBytes s with
  | .error e => .error e
  | .ok bs =>
    match utf8Decode bs with
    | some cs => .ok cs
    | none => .error .invalidUtf8

/-- The inode type of a diff record. -/
inductive InodeType
  | blockDevice
  | characterDevice
  | directory
  | door
  | namedPipe
  | symbolicLink
  | eventPort
  | socket
  | file
deriving DecidableEq, Repr

/-- The change kind of a diff record. -/
inductive ChangeType
  | removed
  | created
  | modified
  | renamed
deriving DecidableEq, Repr

/-- One filesystem-object change reported by zfs diff; the Go field named
Type is called Typ here because Type is reserved in Lean. -/
structure InodeChange where
  Change : ChangeType
  Typ : InodeType
  Path : Str
  NewPath : Str
  ReferenceCountChange : Int
deriving DecidableEq, Repr

/-- Modelled from the spec: the fixed change-kind token vocabulary of the
diff row parser (absent from the sources). -/
def changeTypeOf (tok : Str) : Option ChangeType :=
  if tok = "-".data then some .removed
  else if tok = "+".data then some .created
  else if tok = "M".data then some .modified
  else if tok = "R".data then some .renamed
  else none

/-- Modelled from the spec: the fixed object-type token vocabulary of the
diff row parser (absent from the sources). -/
def inodeTypeOf (tok : Str) : Option InodeType :=
  if tok = "B".data then some .blockDevice
  else if tok = "C".data then some .characterDevice
  else if tok = "/".data then some .directory
  else if tok = ">".data then some .door
  else if tok = "|".data then some .namedPipe
  else if tok = "@".data then some .symbolicLink
  else if tok = "P".data then some .eventPort
  else if tok = "=".data then some .socket
  else if tok = "F".data then some .file
  else none

/-- Modelled from the spec: the reference-count delta of a modified row
must be a signed integer with an explicit sign prefix. -/
def parseReferenceCount (s : Str) : Option Int :=
  match s with
  | '+' :: ds =>
    if ds ≠ [] ∧ ds.all Char.isDigit then
      some (Int.ofNat (ds.foldl (fun a c => a * 10 + (c.toNat - '0'.toNat)) 0))
    else none
  | '-' :: ds =>
    if ds ≠ [] ∧ ds.all Char.isDigit then
      some (-Int.ofNat (ds.foldl (fun a c => a * 10 + (c.toNat - '0'.toNat)) 0))
    else none
  | _ => none

/-- Errors of the diff row parser, each retaining the offending token, row
or decode failure for diagnostics. -/
inductive ParseError
  | unknownChangeKind (tok : Str)
  | unknownObjectType (tok : Str)
  | malformedRow (row : List Str)
  | invalidPath (e : DecodeError)
  | invalidReferenceCount (s : Str)
deriving DecidableEq, Repr

/-- Modelled from the spec: the common tail of the diff row parser once the
change kind and the positional fields are known: resolve the object-type
token, decode the path (and the rename destination), and parse the optional
reference-count delta of a modified row. -/
def parseTypedRow (kind : ChangeType) (typeTok path : Str)
    (newPathField : Option Str) (refField : Option Str) :
    Except ParseError InodeChange :=
  match inodeTypeOf typeTok with
  | none => .error (.unknownObjectType typeTok)
  | some ty =>
    match unescapeFilepath path with
    | .error e => .error (.invalidPath e)
    | .ok p =>
      match newPathField with
      | some np =>
        match unescapeFilepath np with
        | .error e => .error (.invalidPath e)
        | .ok np' => .ok ⟨kind, ty, p, np', 0⟩
      | none =>
        match refField with
        | none => .ok ⟨kind, ty, p, [], 0⟩
        | some r =>
          match parseReferenceCount r with
          | none => .error (.invalidReferenceCount r)
          | some n => .ok ⟨kind, ty, p, [], n⟩

/-- Modelled from the spec: parseInodeChange, the per-row diff parser
(absent from the sources).  The first field is a timestamp and is
discarded; the second is the change-kind token; the remaining field layout
depends on the kind: removed and created rows carry an object type and a
path, modified rows optionally append a reference-count delta, renamed rows
append the destination path.  Any other shape is a malformed row. -/
def parseInodeChange (row : List Str) : Except ParseError InodeChange :=
  match row with
  | _ts :: kindTok :: rest =>
    match changeTypeOf kindTok with
    | none => .error (.unknownChangeKind kindTok)
    | some kind =>
      match kind, rest with
      | .removed, [typeTok, path] => parseTypedRow .removed typeTok path none none
      | .created, [typeTok, path] => parseTypedRow .created typeTok path none none
      | .modified, [typeTok, path] =>
        parseTypedRow .modified typeTok path none none
      | .modified, [typeTok, path, refTok] =>
        parseTypedRow .modified typeTok path none (some refTok)
      | .renamed, [typeTok, path, newPath] =>
        parseTypedRow .renamed typeTok path (some newPath) none
      | _, _ => .error (.malformedRow row)
  | _ => .error (.malformedRow row)

/-- Modelled from the spec: parseInodeChanges, the batch diff parser
(absent from the sources): parse the rows in order and fail fast on the
first bad row, returning either every record or a single error. -/
def parseInodeChanges : List (List Str) → Except ParseError (List InodeChange)
  | [] => .ok []
  | row :: rest =>
    match parseInodeChange row with
    | .error e => .error e
    | .ok c =>
      match parseInodeChanges rest with
      | .error e => .error e
      | .ok cs => .ok (c :: cs)

/-- An error escaping Dataset.Diff: the command error of command.Run or a
row parse error. -/
inductive DiffError
  | cmd (e : ZError)
  | parse (e : ParseError)
deriving DecidableEq, Repr

/-- The rows Dataset.Diff hands to the batch parser for a given command
outcome: the tab-split non-final stdout lines of command.Run. -/
def diffRows (oc : ExecOutcome) : List (List Str) := runSplitRows oc.stdout

/-- Dataset.Diff of the newest zfs.go revision (lines 496 to 507): run zfs
diff, return the command error if it failed, otherwise hand every row to
parseInodeChanges and return either its error or the full record list. -/
def Dataset.Diff (d : Dataset) (snapshot : Str) (oc : ExecOutcome) :
    Option (List InodeChange) × Option DiffError :=
  match commandRun "zfs".data
      ["diff".data, "-FH".data, snapshot, d.Name] false oc with
  | (_, some e) => (none, some (.cmd e))
  | (out, none) =>
    match parseInodeChanges (out.getD []) with
    | .error pe => (none, some (.parse pe))
    | .ok cs => (some cs, none)

/-- Reconstruction measure for the row structure of command.Run: join the
fields of each row with tabs and the rows with newlines. -/
def runJoin (rows : List (List Str)) : Str :=
  List.intercalate ['\n'] (rows.map (List.intercalate ['\t']))

/-- A printable ASCII character. -/
def printableAscii (c : Char) : Bool :=
  decide (0x20 ≤ c.toNat ∧ c.toNat ≤ 0x7E)

/-- A string of printable ASCII characters containing no backslash, hence
free of octal escapes. -/
def escapeFree (s : Str) : Prop :=
  ∀ c ∈ s, printableAscii c = true ∧ c ≠ '\\'

instance (s : Str) : Decidable (escapeFree s) :=
  List.decidableBAll (fun c => printableAscii c = true ∧ c ≠ '\\') s

/-! ## Helper lemmas -/

theorem modifyHead_append_left {α : Type} (f : α → α) (a b : List α)
    (h : a ≠ []) : (a ++ b).modifyHead f = a.modifyHead f ++ b := by
  cases a with
  | nil => exact absurd rfl h
  | cons x xs => simp

theorem splitOn_append_sep {α : Type} [DecidableEq α] (c : α) (s : List α) :
    (s ++ [c]).splitOn c = s.splitOn c ++ [[]] := by
  induction s with
  | nil => simp [List.splitOn, List.splitOnP_cons]
  | cons x s ih =>
    simp only [List.cons_append, List.splitOn, List.splitOnP_cons] at *
    by_cases hx : (x == c) = true
    · simp only [hx, if_pos] at *
      simp [ih]
    · simp only [hx, if_neg, Bool.false_eq_true, not_false_iff] at *
      rw [ih, modifyHead_append_left _ _ _ (List.splitOnP_ne_nil _ _)]

theorem length_splitOn {α : Type} [DecidableEq α] (c : α) (s : List α) :
    (s.splitOn c).length = s.count c + 1 := by
  induction s with
  | nil => simp
  | cons x s ih =>
    simp only [List.splitOn, List.splitOnP_cons] at *
    by_cases hx : (x == c) = true
    · have hxc : x = c := by simpa using hx
      subst hxc
      simp [hx, ih]
    · have hxc : ¬ c = x := by
        intro hcx
        exact hx (by simp [hcx])
      simp [hx, ih, List.count_cons, hxc]

theorem runRows_newline (s : Str) : runRows (s ++ ['\n']) = s.splitOn '\n' := by
  unfold runRows
  rw [splitOn_append_sep]
  simp

theorem exceptMap_map {ε α β γ : Type} (f : α → β) (g : β → γ)
    (x : Except ε α) : (x.map f).map g = x.map (fun a => g (f a)) := by
  cases x <;> rfl

theorem exceptMap_eq_ok {ε α β : Type} (f : α → β) (x : Except ε α) (y : β)
    (h : x.map f = .ok y) : ∃ a, x = .ok a ∧ y = f a := by
  cases x with
  | ok a =>
    refine ⟨a, rfl, ?_⟩
    simpa [Except.map] using h.symm
  | error e => simp [Except.map] at h

theorem parseInodeChanges_ok_length :
    ∀ rows cs, parseInodeChanges rows = .ok cs → cs.length = rows.length := by
  intro rows
  induction rows with
  | nil =>
    intro cs h
    simp only [parseInodeChanges, Except.ok.injEq] at h
    rw [← h]
    rfl
  | cons r rs ih =>
    intro cs h
    unfold parseInodeChanges at h
    cases hr : parseInodeChange r with
    | error e => rw [hr] at h; cases h
    | ok c =>
      rw [hr] at h
      cases hp : parseInodeChanges rs with
      | error e => rw [hp] at h; cases h
      | ok cs' =>
        rw [hp] at h
        cases h
        simp [ih cs' hp]

theorem parseInodeChanges_ok_get :
    ∀ rows cs, parseInodeChanges rows = .ok cs →
      ∀ i (h1 : i < rows.length) (h2 : i < cs.length),
        parseInodeChange (rows.get ⟨i, h1⟩) = .ok (cs.get ⟨i, h2⟩) := by
  intro rows
  induction rows with
  | nil => intro cs h i h1 h2; cases h1
  | cons r rs ih =>
    intro cs h i h1 h2
    unfold parseInodeChanges at h
    cases hr : parseInodeChange r with
    | error e => rw [hr] at h; cases h
    | ok c =>
      rw [hr] at h
      cases hp : parseInodeChanges rs with
      | error e => rw [hp] at h; cases h
      | ok cs' =>
        rw [hp] at h
        cases h
        cases i with
        | zero => simpa using hr
        | succ j =>
          exact ih cs' hp j (Nat.lt_of_succ_lt_succ h1)
            (Nat.lt_of_succ_lt_succ h2)

theorem parseInodeChanges_first_error :
    ∀ pre (row : List Str) post e,
      (∀ r ∈ pre, ∃ c, parseInodeChange r = .ok c) →
      parseInodeChange row = .error e →
      parseInodeChanges (pre ++ row :: post) = .error e := by
  intro pre
  induction pre with
  | nil =>
    intro row post e _ hrow
    simp only [List.nil_append]
    unfold parseInodeChanges
    rw [hrow]
  | cons r rs ih =>
    intro row post e hok hrow
    obtain ⟨c, hc⟩ := hok r (by simp)
    simp only [List.cons_append]
    unfold parseInodeChanges
    rw [hc, ih row post e (fun x hx => hok x (by simp [hx])) hrow]

theorem unescRun_nil (inEsc : Bool) (digs : Str) :
    unescRun [] inEsc digs =
      (if inEsc then
        if digs.length = 3 then
          if digs.all isOctCh ∧ octValOf digs < 256 then .ok [octValOf digs]
          else .error (.invalidOctalDigits digs)
        else .error (.invalidEscapeLength digs)
      else .ok []) := rfl

theorem unescRun_cons (c : Char) (cs : Str) (inEsc : Bool) (digs : Str) :
    unescRun (c :: cs) inEsc digs =
      (if inEsc then
        if c.isDigit then
          if digs.length = 3 then
            if digs.headD ' ' = '0' then
              if (digs ++ [c]).all isOctCh ∧ octValOf (digs ++ [c]) < 256 then
                (unescRun cs false []).map
                  (fun bs => octValOf (digs ++ [c]) :: bs)
              else .error (.invalidOctalDigits (digs ++ [c]))
            else
              if digs.all isOctCh ∧ octValOf digs < 256 then
                (unescRun cs false []).map
                  (fun bs => octValOf digs :: c.toNat :: bs)
              else .error (.invalidOctalDigits digs)
          else unescRun cs true (digs ++ [c])
        else
          if digs.length = 3 then
            if digs.all isOctCh ∧ octValOf digs < 256 then
              if c = '\\' then
                (unescRun cs true []).map (fun bs => octValOf digs :: bs)
              else
                (unescRun cs false []).map
                  (fun bs => octValOf digs :: (charUtf8Bytes c ++ bs))
            else .error (.invalidOctalDigits digs)
          else .error (.invalidEscapeLength digs)
      else
        if c = '\\' then unescRun cs true []
        else (unescRun cs false []).map (fun bs => charUtf8Bytes c ++ bs)) := rfl

set_option maxRecDepth 4000 in
theorem unescRun_false_state (l : Str) (digs : Str) :
    unescRun l false digs = unescRun l false [] := by
  cases l <;> rfl

theorem unescRun_lit (c : Char) (cs : Str) (h : ¬ c = '\\') :
    unescRun (c :: cs) false [] =
      (unescRun cs false []).map (fun bs => charUtf8Bytes c ++ bs) := by
  rw [unescRun_cons]
  simp [h]

theorem unescRun_esc (cs : Str) :
    unescRun ('\\' :: cs) false [] = unescRun cs true [] := by
  rw [unescRun_cons]
  simp

theorem utf8Run_nil (need acc minCp : Nat) :
    utf8Run [] need acc minCp = (if need = 0 then some [] else none) := rfl

theorem utf8Run_cons (b : Nat) (bs : List Nat) (need acc minCp : Nat) :
    utf8Run (b :: bs) need acc minCp =
      (if need = 0 then
        if b < 0x80 then (utf8Run bs 0 0 0).map (fun cs => Char.ofNat b :: cs)
        else if b < 0xC2 then none
        else if b < 0xE0 then utf8Run bs 1 (b - 0xC0) 0x80
        else if b < 0xF0 then utf8Run bs 2 (b - 0xE0) 0x800
        else if b < 0xF5 then utf8Run bs 3 (b - 0xF0) 0x10000
        else none
      else
        if contB b then
          if need = 1 then
            if minCp ≤ acc * 64 + (b - 0x80) ∧
                (acc * 64 + (b - 0x80) < 0xD800 ∨
                  0xE000 ≤ acc * 64 + (b - 0x80)) ∧
                acc * 64 + (b - 0x80) < 0x110000 then
              (utf8Run bs 0 0 0).map
                (fun cs => Char.ofNat (acc * 64 + (b - 0x80)) :: cs)
            else none
          else utf8Run bs (need - 1) (acc * 64 + (b - 0x80)) minCp
        else none) := rfl

set_option maxRecDepth 4000 in
theorem utf8Run_zero_state (l : List Nat) (acc minCp : Nat) :
    utf8Run l 0 acc minCp = utf8Run l 0 0 0 := by
  cases l <;> rfl

theorem escapeFree_lt {s : Str} {c : Char} (hs : escapeFree s) (hc : c ∈ s) :
    c.toNat < 0x80 := by
  have h := (hs c hc).1
  simp only [printableAscii, decide_eq_true_eq] at h
  omega

theorem charUtf8Bytes_ascii {c : Char} (h : c.toNat < 0x80) :
    charUtf8Bytes c = [c.toNat] := by
  simp [charUtf8Bytes, h]

theorem unescapeBytes_clean_front (p : Str) (rest : Str) (hp : escapeFree p) :
    unescapeBytes (p ++ rest) =
      (unescapeBytes rest).map (fun bs => p.map Char.toNat ++ bs) := by
  unfold unescapeBytes
  induction p with
  | nil =>
    rw [List.nil_append]
    cases h : unescRun rest false [] <;> simp [Except.map, h]
  | cons c p ih =>
    have hcp : escapeFree p := fun x hx => hp x (by simp [hx])
    have hne : ¬ c = '\\' := (hp c (by simp)).2
    have hlt : c.toNat < 0x80 := escapeFree_lt hp (by simp)
    rw [List.cons_append, unescRun_lit c (p ++ rest) hne, ih hcp, exceptMap_map]
    cases h : unescRun rest false [] <;>
      simp [Except.map, h, charUtf8Bytes_ascii hlt]

theorem unescapeBytes_clean (q : Str) (hq : escapeFree q) :
    unescapeBytes q = .ok (q.map Char.toNat) := by
  have h := unescapeBytes_clean_front q [] hq
  rw [List.append_nil] at h
  simpa [unescapeBytes, unescRun_nil, Except.map] using h

theorem unescapeBytes_append (q : Str)
    (hq : ∀ c, q.head? = some c → c.isDigit = false) :
    ∀ (run : Str) (inEsc : Bool) (digs : Str) (bytes : List Nat),
      unescRun run inEsc digs = .ok bytes →
      unescRun (run ++ q) inEsc digs =
        (unescRun q false []).map (fun bs => bytes ++ bs) := by
  intro run
  induction run with
  | nil =>
    intro inEsc digs bytes h
    rw [unescRun_nil] at h
    rw [List.nil_append]
    cases inEsc with
    | false =>
      simp only [Bool.false_eq_true, if_false, Except.ok.injEq] at h
      subst h
      rw [unescRun_false_state]
      cases hv : unescRun q false [] <;> simp [Except.map, hv]
    | true =>
      simp only [if_true] at h
      by_cases h3 : digs.length = 3
      · rw [if_pos h3] at h
        by_cases hOct : digs.all isOctCh = true ∧ octValOf digs < 256
        · rw [if_pos hOct] at h
          cases h
          cases q with
          | nil =>
            rw [unescRun_nil, unescRun_nil]
            simp [h3, hOct, Except.map]
          | cons x xs =>
            have hx : x.isDigit = false := hq x rfl
            rw [unescRun_cons, unescRun_cons]
            simp only [if_true, hx, Bool.false_eq_true, if_false, if_pos h3,
              if_pos hOct]
            by_cases hbs : x = '\\'
            · rw [if_pos hbs, if_pos hbs]
              cases hv : unescRun xs true [] <;> simp [Except.map, hv]
            · rw [if_neg hbs, if_neg hbs]
              cases hv : unescRun xs false [] <;> simp [Except.map, hv]
        · rw [if_neg hOct] at h
          cases h
      · rw [if_neg h3] at h
        cases h
  | cons c cs ih =>
    intro inEsc digs bytes h
    rw [unescRun_cons] at h
    rw [List.cons_append, unescRun_cons]
    cases inEsc with
    | false =>
      simp only [Bool.false_eq_true, if_false] at h ⊢
      by_cases hbs : c = '\\'
      · rw [if_pos hbs] at h ⊢
        exact ih true [] bytes h
      · rw [if_neg hbs] at h ⊢
        obtain ⟨bs', hbs', hbytes⟩ := exceptMap_eq_ok _ _ _ h
        subst hbytes
        rw [ih false [] bs' hbs']
        cases hv : unescRun q false [] <;> simp [Except.map, hv]
    | true =>
      simp only [if_true] at h ⊢
      by_cases hd : c.isDigit = true
      · rw [if_pos hd] at h ⊢
        by_cases h3 : digs.length = 3
        · rw [if_pos h3] at h ⊢
          by_cases h0 : digs.headD ' ' = '0'
          · rw [if_pos h0] at h ⊢
            by_cases hok : (digs ++ [c]).all isOctCh = true ∧
                octValOf (digs ++ [c]) < 256
            · rw [if_pos hok] at h ⊢
              obtain ⟨bs', hbs', hbytes⟩ := exceptMap_eq_ok _ _ _ h
              subst hbytes
              rw [ih false [] bs' hbs']
              cases hv : unescRun q false [] <;> simp [Except.map, hv]
            · rw [if_neg hok] at h
              cases h
          · rw [if_neg h0] at h ⊢
            by_cases hOct : digs.all isOctCh = true ∧ octValOf digs < 256
            · rw [if_pos hOct] at h ⊢
              obtain ⟨bs', hbs', hbytes⟩ := exceptMap_eq_ok _ _ _ h
              subst hbytes
              rw [ih false [] bs' hbs']
              cases hv : unescRun q false [] <;> simp [Except.map, hv]
            · rw [if_neg hOct] at h
              cases h
        · rw [if_neg h3] at h ⊢
          exact ih true (digs ++ [c]) bytes h
      · rw [if_neg hd] at h ⊢
        by_cases h3 : digs.length = 3
        · rw [if_pos h3] at h ⊢
          by_cases hOct : digs.all isOctCh = true ∧ octValOf digs < 256
          · rw [if_pos hOct] at h ⊢
            by_cases hbs : c = '\\'
            · rw [if_pos hbs] at h ⊢
              obtain ⟨bs', hbs', hbytes⟩ := exceptMap_eq_ok _ _ _ h
              subst hbytes
              rw [ih true [] bs' hbs']
              cases hv : unescRun q false [] <;> simp [Except.map, hv]
            · rw [if_neg hbs] at h ⊢
              obtain ⟨bs', hbs', hbytes⟩ := exceptMap_eq_ok _ _ _ h
              subst hbytes
              rw [ih false [] bs' hbs']
              cases hv : unescRun q false [] <;> simp [Except.map, hv]
          · rw [if_neg hOct] at h
            cases h
        · rw [if_neg h3] at h
          cases h

theorem utf8Run_append (ys : List Nat) :
    ∀ (xs : List Nat) (need acc minCp : Nat) (u : List Char),
      utf8Run xs need acc minCp = some u →
      utf8Run (xs ++ ys) need acc minCp =
        (utf8Run ys 0 0 0).map (fun cs => u ++ cs) := by
  intro xs
  induction xs with
  | nil =>
    intro need acc minCp u h
    rw [utf8Run_nil] at h
    by_cases hn : need = 0
    · rw [if_pos hn] at h
      cases h
      subst hn
      rw [List.nil_append, utf8Run_zero_state]
      cases hv : utf8Run ys 0 0 0 <;> simp [hv]
    · rw [if_neg hn] at h
      cases h
  | cons b bs ih =>
    intro need acc minCp u h
    rw [utf8Run_cons] at h
    rw [List.cons_append, utf8Run_cons]
    by_cases hn : need = 0
    · rw [if_pos hn] at h ⊢
      by_cases hb1 : b < 0x80
      · rw [if_pos hb1] at h ⊢
        cases hbs : utf8Run bs 0 0 0 with
        | none => rw [hbs] at h; cases h
        | some u' =>
          rw [hbs] at h
          cases h
          rw [ih 0 0 0 u' hbs]
          cases hv : utf8Run ys 0 0 0 <;> simp [hv]
      · rw [if_neg hb1] at h ⊢
        by_cases hb2 : b < 0xC2
        · rw [if_pos hb2] at h; cases h
        · rw [if_neg hb2] at h ⊢
          by_cases hb3 : b < 0xE0
          · rw [if_pos hb3] at h ⊢
            exact ih 1 (b - 0xC0) 0x80 u h
          · rw [if_neg hb3] at h ⊢
            by_cases hb4 : b < 0xF0
            · rw [if_pos hb4] at h ⊢
              exact ih 2 (b - 0xE0) 0x800 u h
            · rw [if_neg hb4] at h ⊢
              by_cases hb5 : b < 0xF5
              · rw [if_pos hb5] at h ⊢
                exact ih 3 (b - 0xF0) 0x10000 u h
              · rw [if_neg hb5] at h; cases h
    · rw [if_neg hn] at h ⊢
      by_cases hc : contB b = true
      · rw [if_pos hc] at h ⊢
        by_cases h1 : need = 1
        · rw [if_pos h1] at h ⊢
          by_cases hv : minCp ≤ acc * 64 + (b - 0x80) ∧
              (acc * 64 + (b - 0x80) < 0xD800 ∨
                0xE000 ≤ acc * 64 + (b - 0x80)) ∧
              acc * 64 + (b - 0x80) < 0x110000
          · rw [if_pos hv] at h ⊢
            cases hbs : utf8Run bs 0 0 0 with
            | none => rw [hbs] at h; cases h
            | some u' =>
              rw [hbs] at h
              cases h
              rw [ih 0 0 0 u' hbs]
              cases hw : utf8Run ys 0 0 0 <;> simp [hw]
          · rw [if_neg hv] at h; cases h
        · rw [if_neg h1] at h ⊢
          exact ih (need - 1) (acc * 64 + (b - 0x80)) minCp u h
      · rw [if_neg hc] at h; cases h

theorem utf8Decode_append (xs : List Nat) (u : List Char) (ys : List Nat)
    (h : utf8Decode xs = some u) :
    utf8Decode (xs ++ ys) = (utf8Decode ys).map (fun cs => u ++ cs) :=
  utf8Run_append ys xs 0 0 0 u h

theorem utf8Decode_ascii_front (p : Str) (rest : List Nat)
    (hp : ∀ c ∈ p, c.toNat < 0x80) :
    utf8Decode (p.map Char.toNat ++ rest) =
      (utf8Decode rest).map (fun cs => p ++ cs) := by
  unfold utf8Decode
  induction p with
  | nil =>
    rw [List.map_nil, List.nil_append]
    cases h : utf8Run rest 0 0 0 <;> simp [h]
  | cons c p ih =>
    have hc := hp c (by simp)
    rw [List.map_cons, List.cons_append, utf8Run_cons]
    rw [if_pos rfl, if_pos hc, ih (fun x hx => hp x (by simp [hx]))]
    cases h : utf8Run rest 0 0 0 <;> simp [h, Char.ofNat_toNat]

theorem utf8Decode_ascii (p : Str) (hp : ∀ c ∈ p, c.toNat < 0x80) :
    utf8Decode (p.map Char.toNat) = some p := by
  have h := utf8Decode_ascii_front p [] hp
  rw [List.append_nil] at h
  simpa [utf8Decode, utf8Run_nil] using h

/-! ## Claim theorems -/

/-- C2: for every property line parsed into a Dataset or Zpool record whose
value field is the missing-property sentinel, the corresponding field is
set to the zero value of its type: the empty string for string fields and
zero for unsigned integer fields. -/
theorem parseLine_dash_sets_zero :
    (∀ ds : Dataset, ds.parseLine "available".data "-".data = .ok { ds with Avail := 0 }) ∧
    (∀ ds : Dataset, ds.parseLine "compression".data "-".data = .ok { ds with Compression := [] }) ∧
    (∀ ds : Dataset, ds.parseLine "mountpoint".data "-".data = .ok { ds with Mountpoint := [] }) ∧
    (∀ ds : Dataset, ds.parseLine "quota".data "-".data = .ok { ds with Quota := 0 }) ∧
    (∀ ds : Dataset, ds.parseLine "type".data "-".data = .ok { ds with Typ := [] }) ∧
    (∀ ds : Dataset, ds.parseLine "used".data "-".data = .ok { ds with Used := 0 }) ∧
    (∀ ds : Dataset, ds.parseLine "volsize".data "-".data = .ok { ds with Volsize := 0 }) ∧
    (∀ ds : Dataset, ds.parseLine "written".data "-".data = .ok { ds with Written := 0 }) ∧
    (∀ z : Zpool, z.parseLine "health".data "-".data = .ok { z with Health := [] }) ∧
    (∀ z : Zpool, z.parseLine "allocated".data "-".data = .ok { z with Allocated := 0 }) ∧
    (∀ z : Zpool, z.parseLine "size".data "-".data = .ok { z with Size := 0 }) ∧
    (∀ z : Zpool, z.parseLine "free".data "-".data = .ok { z with Free := 0 }) := by
  repeat' apply And.intro
  all_goals intro x
  all_goals simp [Dataset.parseLine, Zpool.parseLine, setUint, setString]

/-- C3 counterexample: the oldest command.Run (utils.go lines 52 to 62)
does not split rows on tab characters: on the successful stdout text of one
line holding a space, it returns the two whitespace-separated fields rather
than the single tab-separated field of that line. -/
theorem commandRunV1_not_tab_split :
    commandRunV1 "zfs".data [] false
        ⟨"/sbin/zfs".data, none, "a b\n".data, []⟩ =
      (some [["a".data, "b".data]], none) ∧
    runSplitRows "a b\n".data = [["a b".data]] ∧
    ([["a".data, "b".data]] : List (List Str)) ≠ [["a b".data]] := by
  decide

/-- C3 (amended): the tab-splitting command.Run revisions return one row
per non-final stdout line, each row being the tab-separated fields of that
line: joining the fields back with tabs and the rows with newlines
reconstructs the stdout up to its final newline, and the number of rows
equals the number of newlines. -/
theorem commandRun_tab_rows (s : Str) :
    runJoin (runSplitRows (s ++ ['\n'])) = s ∧
    (runSplitRows (s ++ ['\n'])).length = s.count '\n' + 1 := by
  constructor
  · unfold runJoin runSplitRows
    rw [runRows_newline, List.map_map]
    simp only [Function.comp_def]
    rw [List.map_congr_left (fun l _ => List.intercalate_splitOn l '\t'),
      List.map_id', List.intercalate_splitOn]
  · unfold runSplitRows
    rw [runRows_newline]
    simp [length_splitOn]

/-- C4: for every external command invocation that exits non-zero,
command.Run (in both the oldest and the newest revision) returns no rows
together with an Error record carrying the underlying exit error, the
assembled command line (resolved program path followed by the command name
and the arguments), and the captured stderr text. -/
theorem commandRun_exit_error (cmdName : Str) (args : List Str)
    (redirect : Bool) (oc : ExecOutcome) (e : Str)
    (h : oc.exitErr = some e) :
    commandRun cmdName args redirect oc =
      (none, some ⟨e, oc.resolvedPath ++ ' ' :: joinWords (cmdName :: args),
        oc.stderr⟩) ∧
    commandRunV1 cmdName args redirect oc =
      (none, some ⟨e, oc.resolvedPath ++ ' ' :: joinWords (cmdName :: args),
        oc.stderr⟩) := by
  have hdebug : runDebug cmdName args oc =
      oc.resolvedPath ++ ' ' :: joinWords (cmdName :: args) := by
    simp [runDebug, joinWords, List.intercalate]
  unfold commandRun commandRunV1
  rw [h, hdebug]
  exact ⟨rfl, rfl⟩

theorem commandRun_exit_error_witness :
    commandRun "zfs".data ["list".data] false
        ⟨"/sbin/zfs".data, some "exit status 1".data, [], "boom".data⟩ =
      (none, some ⟨"exit status 1".data,
        "/sbin/zfs".data ++ ' ' :: joinWords ["zfs".data, "list".data],
        "boom".data⟩) :=
  (commandRun_exit_error "zfs".data ["list".data] false
    ⟨"/sbin/zfs".data, some "exit status 1".data, [], "boom".data⟩
    "exit status 1".data rfl).1

/-- C9: in the older zfs.go revision, Rollback on a dataset whose type is
not snapshot never returns the type-check error: the error value is
constructed and discarded, the external rollback command runs anyway, and
the result is solely the command result. -/
theorem rollback_discards_type_error (d : Dataset) (flag : Bool)
    (oc : ExecOutcome) (_h : d.Typ ≠ "snapshot".data) :
    Dataset.Rollback d flag oc =
      (commandRunV1 "zfs".data (rollbackArgs flag d.Name) false oc).2.map
        RollbackError.cmd ∧
    ∀ msg, Dataset.Rollback d flag oc ≠ some (.snapshotOnly msg) := by
  have hrun : Dataset.Rollback d flag oc =
      (commandRunV1 "zfs".data (rollbackArgs flag d.Name) false oc).2.map
        RollbackError.cmd := by
    unfold Dataset.Rollback
    rcases hr : commandRunV1 "zfs".data (rollbackArgs flag d.Name) false oc
      with ⟨o, oe⟩
    cases oe <;> simp
  refine ⟨hrun, fun msg hcontra => ?_⟩
  rw [hrun] at hcontra
  rcases ho : (commandRunV1 "zfs".data (rollbackArgs flag d.Name) false oc).2
    with _ | e <;> rw [ho] at hcontra <;> simp at hcontra

theorem rollback_discards_type_error_witness :
    Dataset.Rollback { Name := "a".data, Typ := "filesystem".data } false
        ⟨"/sbin/zfs".data, some "exit status 1".data, [], "err".data⟩ =
      (commandRunV1 "zfs".data
        (rollbackArgs false "a".data) false
        ⟨"/sbin/zfs".data, some "exit status 1".data, [], "err".data⟩).2.map
        RollbackError.cmd :=
  (rollback_discards_type_error
    { Name := "a".data, Typ := "filesystem".data } false
    ⟨"/sbin/zfs".data, some "exit status 1".data, [], "err".data⟩
    (by decide)).1

/-- C10: Children always excludes the first grouped record from its result
by the slice expression datasets[1:], and consequently, when the external
command succeeds with zero output rows, the slice bound exceeds the empty
list and the call panics (modelled by the none result) rather than
returning an empty list or an error. -/
theorem children_drops_first_or_panics (d : Dataset) (depth : Nat)
    (oc : ExecOutcome) :
    (oc.exitErr = none → runSplitRowsFields oc.stdout = [] →
      Dataset.Children d depth oc = none) ∧
    (∀ g, oc.exitErr = none →
      childLoop (runSplitRowsFields oc.stdout) [] none [] = some (.ok g) →
      1 ≤ g.length →
      Dataset.Children d depth oc = some (some (g.drop 1), none)) := by
  constructor
  · intro hexit hrows
    unfold Dataset.Children commandRunV1
    rw [hexit]
    simp [hrows, childLoop]
  · intro g hexit hloop hlen
    unfold Dataset.Children commandRunV1
    rw [hexit]
    simp [hloop, hlen]

theorem children_drops_first_or_panics_witness :
    Dataset.Children { Name := "a".data } 0
        ⟨"/sbin/zfs".data, none, [], []⟩ = none ∧
    Dataset.Children { Name := "a".data } 0
        ⟨"/sbin/zfs".data, none, "a type filesystem\n".data, []⟩ =
      some (some [], none) := by
  constructor
  · exact (children_drops_first_or_panics { Name := "a".data } 0
      ⟨"/sbin/zfs".data, none, [], []⟩).1 rfl (by decide)
  · exact (children_drops_first_or_panics { Name := "a".data } 0
      ⟨"/sbin/zfs".data, none, "a type filesystem\n".data, []⟩).2
      [{ Name := "a".data, Typ := "filesystem".data }] rfl (by decide)
      (by decide)

/-- C1: every diff parse invocation is all-or-nothing.  Dataset.Diff never
returns records alongside an error; when it returns a record list, the list
holds exactly one record per input row, in input order, each the parse of
its row; and as soon as one row is malformed (all rows before it parsing
fine), the whole call returns that row's error and no records. -/
theorem diff_all_or_nothing (d : Dataset) (snap : Str) (oc : ExecOutcome) :
    ((Dataset.Diff d snap oc).1 = none ∨ (Dataset.Diff d snap oc).2 = none) ∧
    (∀ cs, (Dataset.Diff d snap oc).1 = some cs →
      (Dataset.Diff d snap oc).2 = none ∧
      cs.length = (diffRows oc).length ∧
      ∀ i (h1 : i < (diffRows oc).length) (h2 : i < cs.length),
        parseInodeChange ((diffRows oc).get ⟨i, h1⟩) = .ok (cs.get ⟨i, h2⟩)) ∧
    (∀ pre row post e, oc.exitErr = none →
      diffRows oc = pre ++ row :: post →
      (∀ r ∈ pre, ∃ c, parseInodeChange r = .ok c) →
      parseInodeChange row = .error e →
      Dataset.Diff d snap oc = (none, some (.parse e))) := by
  cases hexit : oc.exitErr with
  | some e =>
    have hred : Dataset.Diff d snap oc =
        (none, some (.cmd ⟨e,
          runDebug "zfs".data ["diff".data, "-FH".data, snap, d.Name] oc,
          oc.stderr⟩)) := by
      unfold Dataset.Diff commandRun
      rw [hexit]
    refine ⟨Or.inl (by rw [hred]), fun cs hcs => ?_, ?_⟩
    · rw [hred] at hcs
      cases hcs
    · intro pre row post e' hnone
      cases hnone
  | none =>
    have hred : Dataset.Diff d snap oc =
        (match parseInodeChanges (runSplitRows oc.stdout) with
         | .error pe => (none, some (DiffError.parse pe))
         | .ok cs => (some cs, none)) := by
      unfold Dataset.Diff commandRun
      rw [hexit]
      rfl
    cases hp : parseInodeChanges (runSplitRows oc.stdout) with
    | error pe =>
      rw [hp] at hred
      refine ⟨Or.inl (by rw [hred]), fun cs hcs => ?_, ?_⟩
      · rw [hred] at hcs
        cases hcs
      · intro pre row post e' _ hsplit hok hrow
        have hfirst := parseInodeChanges_first_error pre row post e' hok hrow
        unfold diffRows at hsplit
        rw [hsplit] at hp
        rw [hp] at hfirst
        cases hfirst
        exact hred
    | ok l =>
      rw [hp] at hred
      refine ⟨Or.inr (by rw [hred]), ?_, ?_⟩
      · intro cs hcs
        rw [hred] at hcs
        cases Option.some.inj hcs
        refine ⟨by rw [hred], ?_, ?_⟩
        · exact parseInodeChanges_ok_length _ _ hp
        · exact fun i h1 h2 => parseInodeChanges_ok_get _ _ hp i h1 h2
      · intro pre row post e' _ hsplit hok hrow
        have hfirst := parseInodeChanges_first_error pre row post e' hok hrow
        unfold diffRows at hsplit
        rw [hsplit] at hp
        rw [hp] at hfirst
        cases hfirst

theorem diff_all_or_nothing_witness :
    ([⟨.modified, .file, "/a".data, [], 1⟩] : List InodeChange).length =
      (diffRows ⟨"/sbin/zfs".data, none, "1\tM\tF\t/a\t+1\n".data, []⟩).length :=
  ((diff_all_or_nothing {} "s".data
      ⟨"/sbin/zfs".data, none, "1\tM\tF\t/a\t+1\n".data, []⟩).2.1
    [⟨.modified, .file, "/a".data, [], 1⟩] (by decide)).2.1

theorem isOctCh_isDigit {c : Char} (h : isOctCh c = true) :
    c.isDigit = true := by
  simp only [isOctCh, Bool.and_eq_true] at h
  exact h.1

theorem octValOf_zero_cons (l : Str) : octValOf ('0' :: l) = octValOf l := by
  simp [octValOf]

theorem unescRun_step_digit (d : Char) (cs : Str) (digs : Str)
    (hd : d.isDigit = true) (hlen : ¬ digs.length = 3) :
    unescRun (d :: cs) true digs = unescRun cs true (digs ++ [d]) := by
  rw [unescRun_cons]
  simp [hd, hlen]

/-- C5: the decoder accepts both the 3-digit and the 4-digit octal escape
forms, decodes each to the single byte named by the octal digits, and both
forms of the same byte decode to the same output. -/
theorem unescape_octal_forms (d1 d2 d3 : Char) (rest : Str)
    (h1 : isOctCh d1 = true) (h2 : isOctCh d2 = true) (h3 : isOctCh d3 = true)
    (hv : octValOf [d1, d2, d3] < 256)
    (hrest : ∀ c, rest.head? = some c → c.isDigit = false) :
    unescapeBytes ('\\' :: d1 :: d2 :: d3 :: rest) =
      (unescapeBytes rest).map (fun bs => octValOf [d1, d2, d3] :: bs) ∧
    unescapeBytes ('\\' :: '0' :: d1 :: d2 :: d3 :: rest) =
      (unescapeBytes rest).map (fun bs => octValOf [d1, d2, d3] :: bs) ∧
    unescapeFilepath ('\\' :: d1 :: d2 :: d3 :: rest) =
      unescapeFilepath ('\\' :: '0' :: d1 :: d2 :: d3 :: rest) := by
  have hd1 := isOctCh_isDigit h1
  have hd2 := isOctCh_isDigit h2
  have hd3 := isOctCh_isDigit h3
  have hoct : ([d1, d2, d3].all isOctCh) = true := by
    simp [h1, h2, h3]
  have main3 : unescapeBytes ('\\' :: d1 :: d2 :: d3 :: rest) =
      (unescapeBytes rest).map (fun bs => octValOf [d1, d2, d3] :: bs) := by
    show unescRun ('\\' :: d1 :: d2 :: d3 :: rest) false [] = _
    rw [unescRun_esc, unescRun_step_digit d1 _ [] hd1 (by simp)]
    simp only [List.nil_append]
    rw [unescRun_step_digit d2 _ [d1] hd2 (by simp)]
    simp only [List.cons_append, List.nil_append]
    rw [unescRun_step_digit d3 _ [d1, d2] hd3 (by simp)]
    simp only [List.cons_append, List.nil_append]
    cases rest with
    | nil =>
      rw [unescRun_nil]
      simp [hoct, hv, unescapeBytes, unescRun_nil, Except.map]
    | cons x xs =>
      have hx : x.isDigit = false := hrest x rfl
      rw [unescRun_cons]
      simp only [if_true, hx, Bool.false_eq_true, if_false]
      rw [if_pos (show List.length [d1, d2, d3] = 3 from rfl),
        if_pos ⟨hoct, hv⟩]
      by_cases hbx : x = '\\'
      · rw [if_pos hbx]
        subst hbx
        show _ = (unescRun ('\\' :: xs) false []).map _
        rw [unescRun_esc]
      · rw [if_neg hbx]
        show _ = (unescRun (x :: xs) false []).map _
        rw [unescRun_lit x xs hbx]
        cases hw : unescRun xs false [] <;> simp [Except.map, hw]
  have main4 : unescapeBytes ('\\' :: '0' :: d1 :: d2 :: d3 :: rest) =
      (unescapeBytes rest).map (fun bs => octValOf [d1, d2, d3] :: bs) := by
    show unescRun ('\\' :: '0' :: d1 :: d2 :: d3 :: rest) false [] = _
    rw [unescRun_esc, unescRun_step_digit '0' _ [] (by decide) (by simp)]
    simp only [List.nil_append]
    rw [unescRun_step_digit d1 _ ['0'] hd1 (by simp)]
    simp only [List.cons_append, List.nil_append]
    rw [unescRun_step_digit d2 _ ['0', d1] hd2 (by simp)]
    simp only [List.cons_append, List.nil_append]
    rw [unescRun_cons]
    simp only [if_true, hd3]
    rw [if_pos (show List.length ['0', d1, d2] = 3 from rfl),
      if_pos (show List.headD ['0', d1, d2] ' ' = '0' from rfl)]
    have h0 : isOctCh '0' = true := by decide
    have hall : ((['0', d1, d2] ++ [d3]).all isOctCh) = true := by
      simp only [List.cons_append, List.nil_append]
      simp [h0, h1, h2, h3]
    have hval : octValOf (['0', d1, d2] ++ [d3]) = octValOf [d1, d2, d3] := by
      simp only [List.cons_append, List.nil_append]
      exact octValOf_zero_cons [d1, d2, d3]
    rw [if_pos ⟨hall, by rw [hval]; exact hv⟩, hval]
    rfl
  refine ⟨main3, main4, ?_⟩
  unfold unescapeFilepath
  rw [main3, main4]

theorem unescape_octal_forms_witness :
    unescapeFilepath ('\\' :: '3' :: '4' :: '2' :: []) =
      unescapeFilepath ('\\' :: '0' :: '3' :: '4' :: '2' :: []) :=
  (unescape_octal_forms '3' '4' '2' [] (by decide) (by decide) (by decide)
    (by decide) (fun c h => by cases h)).2.2

/-- C6: a run of consecutive octal escapes whose decoded bytes form one
multi-byte UTF-8 code point comes out of the decoder as that single
character: the raw bytes of the whole run are accumulated before the byte
stream is reinterpreted as UTF-8 text, rather than each escape being
decoded and emitted independently. -/
theorem unescape_multibyte_run (p run q : Str) (bytes : List Nat) (c : Char)
    (hp : escapeFree p) (hq : escapeFree q)
    (hqd : ∀ x, q.head? = some x → x.isDigit = false)
    (hrun : unescapeBytes run = .ok bytes) (_hmb : 2 ≤ bytes.length)
    (hc : utf8Decode bytes = some [c]) :
    unescapeFilepath (p ++ (run ++ q)) = .ok (p ++ c :: q) := by
  have hbytes : unescapeBytes (p ++ (run ++ q)) =
      .ok (p.map Char.toNat ++ (bytes ++ q.map Char.toNat)) := by
    rw [unescapeBytes_clean_front p _ hp]
    have hrq : unescapeBytes (run ++ q) =
        (unescapeBytes q).map (fun bs => bytes ++ bs) :=
      unescapeBytes_append q hqd run false [] bytes hrun
    rw [hrq, unescapeBytes_clean q hq]
    rfl
  have hdec : utf8Decode (p.map Char.toNat ++ (bytes ++ q.map Char.toNat)) =
      some (p ++ c :: q) := by
    rw [utf8Decode_ascii_front p _ (fun x hx => escapeFree_lt hp hx)]
    rw [utf8Decode_append bytes [c] _ hc]
    rw [utf8Decode_ascii q (fun x hx => escapeFree_lt hq hx)]
    rfl
  unfold unescapeFilepath
  rw [hbytes]
  simp [hdec]

theorem unescape_multibyte_run_witness :
    unescapeFilepath ("i ".data ++
        ("\\0342\\0235\\0244".data ++ " unicode".data)) =
      .ok "i ❤ unicode".data :=
  unescape_multibyte_run "i ".data "\\0342\\0235\\0244".data " unicode".data
    [0xE2, 0x9D, 0xA4] '❤' (by decide) (by decide)
    (fun x h => by
      have hx := Option.some.inj h
      subst hx
      decide)
    (by decide) (by decide) (by decide)

/-- C7: on a string of printable ASCII characters containing no backslash
(and hence no escape sequence), the decoder is the identity. -/
theorem unescape_printable_identity (s : Str) (hs : escapeFree s) :
    unescapeFilepath s = .ok s := by
  unfold unescapeFilepath
  rw [unescapeBytes_clean s hs]
  simp [utf8Decode_ascii s (fun c hc => escapeFree_lt hs hc)]

theorem unescape_printable_identity_witness :
    unescapeFilepath "i heart unicode".data = .ok "i heart unicode".data :=
  unescape_printable_identity "i heart unicode".data (by decide)

/-- C8: the decoder fails with an invalid-octal-digits error carrying the
offending digit run whenever a captured digit run does not parse in base 8
as one byte -- universally, for the 3-digit form (a captured run of three
decimal digits delimited by a non-digit or the end) and for the 4-digit
form (a captured run of four decimal digits starting with 0), in any
escape-free context; on the literal spec input the error carries the
substring 0999 -- and fails with an invalid-escape-length error carrying
the digit run whenever an escape has fewer than three digits before a
non-digit delimiter or the end of the string; it returns a decoded string
in none of these cases. -/
theorem unescape_error_cases :
    unescapeFilepath "\\0040\\0999\\0235\\0244\\0040 unicode".data =
      .error (.invalidOctalDigits "0999".data) ∧
    (∀ p q : Str, ∀ d1 d2 d3 : Char, escapeFree p →
      d1.isDigit = true → d2.isDigit = true → d3.isDigit = true →
      ¬ ([d1, d2, d3].all isOctCh = true ∧ octValOf [d1, d2, d3] < 256) →
      (∀ c, q.head? = some c → c.isDigit = false) →
      unescapeFilepath (p ++ '\\' :: d1 :: d2 :: d3 :: q) =
        .error (.invalidOctalDigits [d1, d2, d3])) ∧
    (∀ p q : Str, ∀ d1 d2 d3 : Char, escapeFree p →
      d1.isDigit = true → d2.isDigit = true → d3.isDigit = true →
      ¬ (['0', d1, d2, d3].all isOctCh = true ∧
          octValOf ['0', d1, d2, d3] < 256) →
      unescapeFilepath (p ++ '\\' :: '0' :: d1 :: d2 :: d3 :: q) =
        .error (.invalidOctalDigits ['0', d1, d2, d3])) ∧
    ∀ p ds q : Str, escapeFree p → (∀ c ∈ ds, c.isDigit = true) →
      ds.length < 3 → (∀ c, q.head? = some c → c.isDigit = false) →
      unescapeFilepath (p ++ '\\' :: (ds ++ q)) =
        .error (.invalidEscapeLength ds) := by
  refine ⟨by decide, ?_, ?_, ?_⟩
  · intro p q d1 d2 d3 hp hd1 hd2 hd3 hbad hq
    have herr : unescapeBytes ('\\' :: d1 :: d2 :: d3 :: q) =
        .error (.invalidOctalDigits [d1, d2, d3]) := by
      show unescRun ('\\' :: d1 :: d2 :: d3 :: q) false [] = _
      rw [unescRun_esc, unescRun_step_digit d1 _ [] hd1 (by simp)]
      simp only [List.nil_append]
      rw [unescRun_step_digit d2 _ [d1] hd2 (by simp)]
      simp only [List.cons_append, List.nil_append]
      rw [unescRun_step_digit d3 _ [d1, d2] hd3 (by simp)]
      simp only [List.cons_append, List.nil_append]
      cases q with
      | nil =>
        rw [unescRun_nil]
        simp only [if_true]
        rw [if_pos (show List.length [d1, d2, d3] = 3 from rfl),
          if_neg hbad]
      | cons x xs =>
        have hx : x.isDigit = false := hq x rfl
        rw [unescRun_cons]
        simp only [if_true, hx, Bool.false_eq_true, if_false]
        rw [if_pos (show List.length [d1, d2, d3] = 3 from rfl),
          if_neg hbad]
    have hbytes : unescapeBytes (p ++ '\\' :: d1 :: d2 :: d3 :: q) =
        .error (.invalidOctalDigits [d1, d2, d3]) := by
      rw [unescapeBytes_clean_front p _ hp, herr]
      rfl
    unfold unescapeFilepath
    rw [hbytes]
  · intro p q d1 d2 d3 hp hd1 hd2 hd3 hbad
    have herr : unescapeBytes ('\\' :: '0' :: d1 :: d2 :: d3 :: q) =
        .error (.invalidOctalDigits ['0', d1, d2, d3]) := by
      show unescRun ('\\' :: '0' :: d1 :: d2 :: d3 :: q) false [] = _
      rw [unescRun_esc, unescRun_step_digit '0' _ [] (by decide) (by simp)]
      simp only [List.nil_append]
      rw [unescRun_step_digit d1 _ ['0'] hd1 (by simp)]
      simp only [List.cons_append, List.nil_append]
      rw [unescRun_step_digit d2 _ ['0', d1] hd2 (by simp)]
      simp only [List.cons_append, List.nil_append]
      rw [unescRun_cons]
      simp only [if_true, hd3]
      rw [if_pos (show List.length ['0', d1, d2] = 3 from rfl),
        if_pos (show List.headD ['0', d1, d2] ' ' = '0' from rfl)]
      simp only [List.cons_append, List.nil_append]
      rw [if_neg hbad]
    have hbytes : unescapeBytes (p ++ '\\' :: '0' :: d1 :: d2 :: d3 :: q) =
        .error (.invalidOctalDigits ['0', d1, d2, d3]) := by
      rw [unescapeBytes_clean_front p _ hp, herr]
      rfl
    unfold unescapeFilepath
    rw [hbytes]
  intro p ds q hp hds hlen hq
  have hshort : ∀ digs : Str, ¬ digs.length = 3 →
      unescRun q true digs = .error (.invalidEscapeLength digs) := by
    intro digs hd3
    cases q with
    | nil =>
      rw [unescRun_nil]
      simp [hd3]
    | cons x xs =>
      have hx : x.isDigit = false := hq x rfl
      rw [unescRun_cons]
      simp [hx, hd3]
  have herr : unescapeBytes ('\\' :: (ds ++ q)) =
      .error (.invalidEscapeLength ds) := by
    show unescRun ('\\' :: (ds ++ q)) false [] = _
    rw [unescRun_esc]
    cases ds with
    | nil =>
      rw [List.nil_append]
      exact hshort [] (by simp)
    | cons a ds' =>
      have ha : a.isDigit = true := hds a (by simp)
      cases ds' with
      | nil =>
        rw [List.cons_append, List.nil_append,
          unescRun_step_digit a q [] ha (by simp)]
        simp only [List.nil_append]
        exact hshort [a] (by simp)
      | cons b ds'' =>
        have hb : b.isDigit = true := hds b (by simp)
        cases ds'' with
        | nil =>
          rw [List.cons_append, List.cons_append, List.nil_append,
            unescRun_step_digit a _ [] ha (by simp)]
          simp only [List.nil_append]
          rw [unescRun_step_digit b q [a] hb (by simp)]
          simp only [List.cons_append, List.nil_append]
          exact hshort [a, b] (by simp)
        | cons e t =>
          exfalso
          simp at hlen
          omega
  have hbytes : unescapeBytes (p ++ '\\' :: (ds ++ q)) =
      .error (.invalidEscapeLength ds) := by
    rw [unescapeBytes_clean_front p _ hp, herr]
    rfl
  unfold unescapeFilepath
  rw [hbytes]

theorem unescape_error_cases_witness :
    unescapeFilepath ("i ".data ++ '\\' :: '9' :: '9' :: '9' :: " x".data) =
      .error (.invalidOctalDigits "999".data) ∧
    unescapeFilepath ("i ".data ++ '\\' :: '0' :: '9' :: '9' :: '9' :: " u".data) =
      .error (.invalidOctalDigits "0999".data) ∧
    unescapeFilepath ("i ".data ++ '\\' :: ("09".data ++ " x".data)) =
      .error (.invalidEscapeLength "09".data) :=
  ⟨unescape_error_cases.2.1 "i ".data " x".data '9' '9' '9' (by decide)
    (by decide) (by decide) (by decide) (by decide)
    (fun x h => by
      have hx := Option.some.inj h
      subst hx
      decide),
   unescape_error_cases.2.2.1 "i ".data " u".data '9' '9' '9' (by decide)
    (by decide) (by decide) (by decide) (by decide),
   unescape_error_cases.2.2.2 "i ".data "09".data " x".data (by decide)
    (by decide) (by decide)
    (fun x h => by
      have hx := Option.some.inj h
      subst hx
      decide)⟩

end GoZfs
